import Mathlib

/-!
# Verification of the synchronous event demultiplexing demo

Shallow embedding of `src/non_blocking_io/src/synchronous_event_demultiplexing.ts`.

Modelling choices:
* `dataQueue : (string | null)[]` becomes `List (Option String)`; the JS `null`
  is `none`.
* Listener callbacks `(() => void)[]` are opaque to the `Resource` class, so we
  model them by symbolic identifiers (`Nat`); `emit` reports the list of fired
  identifiers in order.
* `async`/`await` latency (`setTimeout`) only delays operations; in Node's
  single-threaded cooperative scheduling each queue mutation is atomic, so a
  method is a pure state transformer `Resource → ... × Resource`.
* A `Demultiplexer.watch` invocation is modelled by two phases, following the
  program's own scheduling: the probe phase (the `read` callbacks of all
  resources run, in subscription order, since every probe awaits the same
  timer delay and Node fires equal timers FIFO), and an event phase (a
  sequence of completed `addDataQueue` calls, each running `emit` on its
  resource).  The resolve callback that `watch` registers via `onDataReady`
  is tracked per resource by a boolean `sub` (it is the only listener whose
  firing affects this invocation's promise; `emit` clears all listeners, so
  any enqueue on the resource clears `sub`).
* Resources in the watched array are distinct objects (value semantics, no
  aliasing), as in the program's `main`.
-/

/-- The sentinel string `"NO_DATA_AVAILABLE"` returned by `Resource.read`
when no data is available. -/
def NO_DATA_AVAILABLE : String := "NO_DATA_AVAILABLE"

/-- The `Resource` class: a name, a data queue (`null` = `none`), and the
registered readiness listeners (modelled by symbolic identifiers). -/
structure Resource where
  name : String
  dataQueue : List (Option String)
  listeners : List Nat
deriving DecidableEq, Repr

/-- JS `data || "NO_DATA_AVAILABLE"` on `data : string | null`: both `null`
and the empty string are falsy, so they yield the sentinel. -/
def orNoData : Option String → String
  | none => NO_DATA_AVAILABLE
  | some s => if s = "" then NO_DATA_AVAILABLE else s

/-- `Resource.read`: after the simulated latency, return the sentinel if the
queue is empty, otherwise `shift()` the head and return
`data || "NO_DATA_AVAILABLE"`. -/
def Resource.read (r : Resource) : String × Resource :=
  match r.dataQueue with
  | [] => (NO_DATA_AVAILABLE, r)
  | d :: rest => (orNoData d, { r with dataQueue := rest })

/-- `Resource.emit`: run every registered listener in order, then clear the
listener list.  Returns the new state and the fired listeners in order. -/
def Resource.emit (r : Resource) : Resource × List Nat :=
  ({ r with listeners := [] }, r.listeners)

/-- `Resource.addDataQueue`: after the simulated latency, push the item at the
tail of the queue, then call `emit`. -/
def Resource.addDataQueue (r : Resource) (data : String) : Resource × List Nat :=
  Resource.emit { r with dataQueue := r.dataQueue ++ [some data] }

/-- `Resource.onDataReady`: register one more listener at the end of the
listener list. -/
def Resource.onDataReady (r : Resource) (callback : Nat) : Resource :=
  { r with listeners := r.listeners ++ [callback] }

/-- An operation of the single-resource producer/consumer protocol:
`enq d` is `addDataQueue d`, `deq` is `read`. -/
inductive QueueOp where
  | enq (data : String)
  | deq
deriving DecidableEq, Repr

/-- Run a sequence of queue operations on a resource, collecting in order the
elements that `read` removed from the queue. -/
def runOps : Resource → List QueueOp → Resource × List (Option String)
  | r, [] => (r, [])
  | r, QueueOp.enq d :: ops => runOps (r.addDataQueue d).1 ops
  | r, QueueOp.deq :: ops =>
      let g := runOps (r.read).2 ops
      (g.1, r.dataQueue.head?.toList ++ g.2)

/-- The items a sequence of operations enqueues, in call order. -/
def enqueuedOf : List QueueOp → List (Option String)
  | [] => []
  | QueueOp.enq d :: ops => some d :: enqueuedOf ops
  | QueueOp.deq :: ops => enqueuedOf ops

/-!
## The `Demultiplexer.watch` invocation model
-/

/-- The state of one watched resource inside a `watch` invocation: the
resource object and whether the resolve callback that `watch` registered via
`onDataReady` is still outstanding on it. -/
structure RState where
  res : Resource
  sub : Bool
deriving DecidableEq, Repr

/-- The accumulator that the probe callbacks of `watch` share: the `ready`
array (indices of resources found ready), the `waiting` counter, and the
promise's resolution value (`none` while pending). -/
structure WAcc where
  ready : List Nat
  waiting : Nat
  result : Option (List Nat)
deriving DecidableEq, Repr

/-- A JS promise resolves at most once: a second `resolve` call is a no-op. -/
def resolveOnce (r : Option (List Nat)) (v : List Nat) : Option (List Nat) :=
  match r with
  | none => some v
  | some w => some w

/-- The ready branch of a probe callback: push the resource's index on
`ready`, decrement `waiting`, and resolve with the whole `ready` array when
`waiting` reaches zero. -/
def probeAcc (i : Nat) (acc : WAcc) : WAcc :=
  let ready := acc.ready ++ [i]
  let waiting := acc.waiting - 1
  if waiting = 0 then ⟨ready, waiting, resolveOnce acc.result ready⟩
  else ⟨ready, waiting, acc.result⟩

/-- Run the probe callbacks of the resources in order (the resource at the
head has index `i`).  A probe whose `read` returns the sentinel registers the
resolve callback (`sub := true`); otherwise the ready branch `probeAcc`
runs. -/
def probeGo : Nat → List Resource → WAcc → List RState × WAcc
  | _, [], acc => ([], acc)
  | i, r :: rest, acc =>
    let p := r.read
    if p.1 = NO_DATA_AVAILABLE then
      let g := probeGo (i + 1) rest acc
      (⟨p.2, true⟩ :: g.1, g.2)
    else
      let g := probeGo (i + 1) rest (probeAcc i acc)
      (⟨p.2, false⟩ :: g.1, g.2)

/-- The state of a `watch` invocation after its probe phase. -/
structure WatchState where
  rstates : List RState
  ready : List Nat
  waiting : Nat
  result : Option (List Nat)
deriving DecidableEq, Repr

/-- `Demultiplexer.watch` up to the end of the probe phase: `waiting` starts
at `resources.length`, `ready` empty, promise pending. -/
def watchProbe (rs : List Resource) : WatchState :=
  let g := probeGo 0 rs ⟨[], rs.length, none⟩
  ⟨g.1, g.2.ready, g.2.waiting, g.2.result⟩

/-- The shared accumulator of `watch` after only the first `k` probe
callbacks have run (the probes run one per resource, in order). -/
def watchProbeUpTo (rs : List Resource) (k : Nat) : WAcc :=
  (probeGo 0 (rs.take k) ⟨[], rs.length, none⟩).2

/-- Which resources still carry the watch invocation's resolve callback. -/
def WatchState.subsOf (st : WatchState) : List Bool :=
  st.rstates.map (fun s => s.sub)

/-- One completed `addDataQueue ev.2` on resource index `ev.1` during the
event phase: the item is appended, `emit` fires and clears the listeners, and
if the watch's resolve callback was outstanding it resolves the promise with
the singleton `[ev.1]`. -/
def eventStep (st : WatchState) (ev : Nat × String) : WatchState :=
  match st.rstates[ev.1]? with
  | none => st
  | some s =>
    let rstates := st.rstates.set ev.1 ⟨(s.res.addDataQueue ev.2).1, false⟩
    if s.sub then
      { st with rstates := rstates, result := resolveOnce st.result [ev.1] }
    else
      { st with rstates := rstates }

/-- Run a sequence of `addDataQueue` events after the probe phase. -/
def runEvents (st : WatchState) (evs : List (Nat × String)) : WatchState :=
  evs.foldl eventStep st

/-- The index of the first event that hits a resource on which the watch's
resolve callback is outstanding (each event clears the listeners of its
resource). -/
def firstSubFired : List Bool → List (Nat × String) → Option Nat
  | _, [] => none
  | subs, ev :: evs =>
      if (subs[ev.1]?).getD false then some ev.1
      else firstSubFired (subs.set ev.1 false) evs

/-- How many of the resources would probe ready (non-sentinel `read`). -/
def readyCount (rs : List Resource) : Nat :=
  rs.countP (fun r => !((r.read).1 == NO_DATA_AVAILABLE))

/-!
## Resource-level theorems
-/

/-- C6 — FIFO: along any sequence of `addDataQueue`/`read` operations, the
elements removed by `read`, followed by what is left in the queue, are exactly
the initial queue followed by the enqueued items in call order; hence dequeue
order equals enqueue order. -/
theorem fifo_dequeue_order_eq_enqueue_order (r : Resource) (ops : List QueueOp) :
    (runOps r ops).2 ++ (runOps r ops).1.dataQueue = r.dataQueue ++ enqueuedOf ops := by
  induction ops generalizing r with
  | nil => simp [runOps, enqueuedOf]
  | cons op ops ih =>
    cases op with
    | enq d =>
      have h := ih ((r.addDataQueue d).1)
      simp only [Resource.addDataQueue, Resource.emit] at h
      simp [runOps, enqueuedOf, Resource.addDataQueue, Resource.emit, h]
    | deq =>
      obtain ⟨nm, q, ls⟩ := r
      cases q with
      | nil => simpa [runOps, enqueuedOf, Resource.read] using ih ⟨nm, [], ls⟩
      | cons d rest => simpa [runOps, enqueuedOf, Resource.read] using ih ⟨nm, rest, ls⟩

/-- C5 — an `addDataQueue` fires every outstanding subscription exactly once,
in registration order, after appending the item; it clears the subscription
list, so an immediately following `addDataQueue` fires none of them. -/
theorem addDataQueue_fires_listeners_once_in_order (r : Resource) (d e : String) :
    (r.addDataQueue d).2 = r.listeners ∧
    (r.addDataQueue d).1.dataQueue = r.dataQueue ++ [some d] ∧
    (r.addDataQueue d).1.listeners = [] ∧
    r.addDataQueue d = Resource.emit { r with dataQueue := r.dataQueue ++ [some d] } ∧
    ((r.addDataQueue d).1.addDataQueue e).2 = [] :=
  ⟨rfl, rfl, rfl, rfl, rfl⟩

/-- C7 — `read` on an empty queue returns the sentinel and leaves the whole
resource state (queue and listeners) unchanged. -/
theorem read_empty_queue_no_mutation (r : Resource) (h : r.dataQueue = []) :
    r.read = (NO_DATA_AVAILABLE, r) := by
  obtain ⟨nm, q, ls⟩ := r
  cases q with
  | nil => rfl
  | cons d rest => simp at h

/-- C7 witness: reading an empty resource that still has a listener returns
the sentinel and the unchanged state. -/
theorem read_empty_queue_no_mutation_witness :
    Resource.read ⟨"A", [], [7]⟩ = (NO_DATA_AVAILABLE, ⟨"A", [], [7]⟩) :=
  read_empty_queue_no_mutation ⟨"A", [], [7]⟩ rfl

/-- C4 counterexample — a non-empty queue whose head is the (falsy) empty
string: `read` removes the head but returns the sentinel, not the head item,
so the claim "read returns the head item whenever the queue is non-empty" is
false as stated over all resource states. -/
theorem read_falsy_head_counterexample :
    (⟨"A", [some ""], []⟩ : Resource).dataQueue ≠ [] ∧
    (Resource.read ⟨"A", [some ""], []⟩).1 = NO_DATA_AVAILABLE ∧
    (Resource.read ⟨"A", [some ""], []⟩).1 ≠ "" ∧
    (Resource.read ⟨"A", [some ""], []⟩).2.dataQueue = [] := by
  refine ⟨by simp, rfl, by decide, rfl⟩

/-- C4 amended — `read` returns the sentinel on an empty queue; on a
non-empty queue it removes the head and returns `data || "NO_DATA_AVAILABLE"`:
the head itself whenever the head is a non-null, non-empty string, and the
sentinel otherwise. -/
theorem read_head_behavior_amended (r : Resource) :
    (r.dataQueue = [] → r.read = (NO_DATA_AVAILABLE, r)) ∧
    ∀ d rest, r.dataQueue = d :: rest →
      r.read = (orNoData d, { r with dataQueue := rest }) ∧
      ∀ s, d = some s → s ≠ "" → (r.read).1 = s := by
  obtain ⟨nm, q, ls⟩ := r
  cases q with
  | nil =>
    refine ⟨fun _ => rfl, ?_⟩
    intro d rest h
    simp at h
  | cons d0 rest0 =>
    refine ⟨fun h => by simp at h, ?_⟩
    intro d rest h
    simp at h
    obtain ⟨hd, hrest⟩ := h
    subst hd
    subst hrest
    refine ⟨rfl, ?_⟩
    intro s hs hne
    subst hs
    simp [Resource.read, orNoData, hne]

/-- C4 amended witness: a genuine (truthy) head item is removed and returned. -/
theorem read_head_behavior_amended_witness :
    Resource.read ⟨"A", [some "x"], []⟩ = ("x", ⟨"A", [], []⟩) := by
  have h := ((read_head_behavior_amended ⟨"A", [some "x"], []⟩).2 (some "x") [] rfl).1
  rw [h]
  decide

/-- C10 — a queue whose head is the string `"NO_DATA_AVAILABLE"` is
indistinguishable, through `read`, from an empty queue: both return the
sentinel value. -/
theorem read_sentinel_head_indistinguishable :
    (Resource.read ⟨"A", [some NO_DATA_AVAILABLE], []⟩).1
      = (Resource.read ⟨"B", [], []⟩).1 ∧
    (⟨"A", [some NO_DATA_AVAILABLE], []⟩ : Resource).dataQueue ≠ [] := by
  refine ⟨by decide, by simp⟩

/-!
## Helper lemmas about the watch phases
-/

/-- A list that has an element failing the predicate has fewer matches than
elements. -/
theorem countP_lt_length_of_exists {α : Type} (p : α → Bool) (l : List α)
    (h : ∃ a ∈ l, p a = false) : l.countP p < l.length := by
  induction l with
  | nil => simp at h
  | cons a l ih =>
    rcases h with ⟨b, hb, hpb⟩
    rcases List.mem_cons.mp hb with rfl | hbl
    · have hc := List.countP_le_length (l := l) p
      by_cases hp : p b
      · rw [hp] at hpb; cases hpb
      · simp [List.countP_cons, hp]
        omega
    · have := ih ⟨b, hbl, hpb⟩
      by_cases hp : p a
      · simp [List.countP_cons, hp]; omega
      · simp [List.countP_cons, hp]; omega

/-- Unfolding `probeGo` on a resource whose probe returns the sentinel. -/
theorem probeGo_cons_empty (i : Nat) (r : Resource) (rest : List Resource) (acc : WAcc)
    (hr : (r.read).1 = NO_DATA_AVAILABLE) :
    probeGo i (r :: rest) acc
      = (⟨(r.read).2, true⟩ :: (probeGo (i + 1) rest acc).1,
         (probeGo (i + 1) rest acc).2) := by
  rw [probeGo]
  simp only [hr, if_pos]

/-- Unfolding `probeGo` on a resource whose probe returns data. -/
theorem probeGo_cons_ready (i : Nat) (r : Resource) (rest : List Resource) (acc : WAcc)
    (hr : ¬((r.read).1 = NO_DATA_AVAILABLE)) :
    probeGo i (r :: rest) acc
      = (⟨(r.read).2, false⟩ :: (probeGo (i + 1) rest (probeAcc i acc)).1,
         (probeGo (i + 1) rest (probeAcc i acc)).2) := by
  rw [probeGo]
  simp only [hr, if_neg, if_false]

/-- While strictly fewer resources probe ready than the `waiting` counter
demands, the probe phase never resolves: the promise keeps the value it had
on entry. -/
theorem probeGo_result_pending (rs : List Resource) :
    ∀ i acc, readyCount rs < acc.waiting →
      (probeGo i rs acc).2.result = acc.result := by
  induction rs with
  | nil => intro i acc _; rfl
  | cons r rest ih =>
    intro i acc h
    by_cases hr : (r.read).1 = NO_DATA_AVAILABLE
    · have hc : readyCount (r :: rest) = readyCount rest := by
        simp [readyCount, List.countP_cons, hr]
      rw [hc] at h
      simpa [probeGo, hr] using ih (i + 1) acc h
    · have hc : readyCount (r :: rest) = readyCount rest + 1 := by
        simp [readyCount, List.countP_cons, hr]
      rw [hc] at h
      have hw : acc.waiting - 1 ≠ 0 := by omega
      have hacc : probeAcc i acc = ⟨acc.ready ++ [i], acc.waiting - 1, acc.result⟩ := by
        simp [probeAcc, hw]
      have hlt : readyCount rest < (probeAcc i acc).waiting := by
        rw [hacc]; simp; omega
      have hres := ih (i + 1) (probeAcc i acc) hlt
      rw [hacc] at hres
      simpa [probeGo, hr, hacc] using hres

/-- When every resource probes ready and `waiting` starts at the number of
resources, the last probe callback resolves the promise with the whole ready
array: the entry `ready` followed by all the indices in order. -/
theorem probeGo_result_all_ready (rs : List Resource) :
    ∀ i acc, (∀ r ∈ rs, (r.read).1 ≠ NO_DATA_AVAILABLE) →
      acc.waiting = rs.length → acc.result = none → rs ≠ [] →
      (probeGo i rs acc).2.result = some (acc.ready ++ List.range' i rs.length) := by
  induction rs with
  | nil => intro i acc _ _ _ hne; exact absurd rfl hne
  | cons r rest ih =>
    intro i acc hall hw hres _
    have hr : ¬((r.read).1 = NO_DATA_AVAILABLE) := hall r (by simp)
    cases rest with
    | nil =>
      simp [probeGo, hr, probeAcc, hw, resolveOnce, hres, List.range']
    | cons r2 rest2 =>
      have hw' : acc.waiting - 1 ≠ 0 := by rw [hw]; simp
      have hacc : probeAcc i acc = ⟨acc.ready ++ [i], acc.waiting - 1, acc.result⟩ := by
        simp [probeAcc, hw']
      have hrec := ih (i + 1) (probeAcc i acc)
        (fun r' hr' => hall r' (by simp [hr']))
        (by rw [hacc, hw]; simp)
        (by rw [hacc]; exact hres)
        (by simp)
      rw [hacc] at hrec
      rw [probeGo_cons_ready i r (r2 :: rest2) acc hr, hacc]
      simp only at hrec
      rw [hrec]
      simp [List.range'_succ]

/-- The per-resource states that the probe phase produces: each resource's
queue has been probed by `read`, and the watch's resolve callback is
outstanding exactly on the resources whose probe returned the sentinel. -/
theorem probeGo_rstates (rs : List Resource) :
    ∀ i acc, (probeGo i rs acc).1
      = rs.map (fun r => ⟨(r.read).2, decide ((r.read).1 = NO_DATA_AVAILABLE)⟩) := by
  induction rs with
  | nil => intro i acc; rfl
  | cons r rest ih =>
    intro i acc
    by_cases hr : (r.read).1 = NO_DATA_AVAILABLE
    · rw [probeGo_cons_empty i r rest acc hr]
      simp [ih, hr]
    · rw [probeGo_cons_ready i r rest acc hr]
      simp [ih, hr]

/-- Unfolding `runEvents` on a first event. -/
theorem runEvents_cons (st : WatchState) (ev : Nat × String) (evs : List (Nat × String)) :
    runEvents st (ev :: evs) = runEvents (eventStep st ev) evs := rfl

/-- A resolved promise stays resolved across one event (`resolve` is
one-shot). -/
theorem eventStep_result_some (st : WatchState) (ev : Nat × String) (v : List Nat)
    (h : st.result = some v) : (eventStep st ev).result = some v := by
  cases hm : st.rstates[ev.1]? with
  | none => simpa [eventStep, hm] using h
  | some s =>
    by_cases hs : s.sub
    · simp [eventStep, hm, hs, h, resolveOnce]
    · simp [eventStep, hm, hs, h]

/-- A resolved promise stays resolved across any sequence of events. -/
theorem runEvents_result_some (evs : List (Nat × String)) :
    ∀ st v, st.result = some v → (runEvents st evs).result = some v := by
  induction evs with
  | nil => intro st v h; exact h
  | cons ev evs ih =>
    intro st v h
    rw [runEvents_cons]
    exact ih _ v (eventStep_result_some st ev v h)

/-- The central event-phase lemma: starting from a pending promise, the run
of events resolves the promise with the singleton of the first event index
whose resource still carries the watch's resolve callback — and with nothing
at all if no such event occurs. -/
theorem runEvents_result_of_pending (evs : List (Nat × String)) :
    ∀ st, st.result = none →
      (runEvents st evs).result
        = (firstSubFired st.subsOf evs).map (fun i => [i]) := by
  induction evs with
  | nil => intro st h; simpa [runEvents, firstSubFired] using h
  | cons ev evs ih =>
    intro st h
    rw [runEvents_cons]
    cases hm : st.rstates[ev.1]? with
    | none =>
      have hsub : st.subsOf[ev.1]? = none := by
        simp [WatchState.subsOf, List.getElem?_map, hm]
      have hlen : st.subsOf.length ≤ ev.1 := List.getElem?_eq_none_iff.mp hsub
      have hset : st.subsOf.set ev.1 false = st.subsOf := List.set_eq_of_length_le hlen
      have hstep : eventStep st ev = st := by simp [eventStep, hm]
      rw [hstep, ih st h]
      simp [firstSubFired, hsub, hset]
    | some s =>
      have hsub : st.subsOf[ev.1]? = some s.sub := by
        simp [WatchState.subsOf, List.getElem?_map, hm]
      by_cases hs : s.sub
      · have hstep : (eventStep st ev).result = some [ev.1] := by
          simp [eventStep, hm, hs, h, resolveOnce]
        rw [runEvents_result_some evs _ [ev.1] hstep]
        simp [firstSubFired, hsub, hs]
      · have hsr : (eventStep st ev).result = none := by
          simp [eventStep, hm, hs, h]
        have hss : (eventStep st ev).subsOf = st.subsOf.set ev.1 false := by
          simp [eventStep, hm, hs, WatchState.subsOf, List.map_set]
        rw [ih _ hsr, hss]
        simp [firstSubFired, hsub, hs]

/-- With no subscriptions at all, no event sequence finds one to fire. -/
theorem firstSubFired_nil_subs (evs : List (Nat × String)) :
    firstSubFired [] evs = none := by
  induction evs with
  | nil => rfl
  | cons ev evs ih => simpa [firstSubFired] using ih

/-!
## Demultiplexer-level theorems
-/

/-- C1 — when at least one probe returns the sentinel, the probe phase leaves
the promise pending, the resolve callback is subscribed exactly on the
resources whose probe returned the sentinel, and any later run of enqueue
events resolves the promise with the singleton of the first subscribed
resource whose subscription fires (and never resolves if none fires). -/
theorem watch_mixed_resolves_with_first_fired_subscription
    (rs : List Resource)
    (h : ∃ r ∈ rs, (r.read).1 = NO_DATA_AVAILABLE)
    (evs : List (Nat × String)) :
    (watchProbe rs).result = none ∧
    (watchProbe rs).subsOf
      = rs.map (fun r => decide ((r.read).1 = NO_DATA_AVAILABLE)) ∧
    (runEvents (watchProbe rs) evs).result
      = (firstSubFired (watchProbe rs).subsOf evs).map (fun i => [i]) := by
  have hcnt : readyCount rs < rs.length := by
    rcases h with ⟨r, hrm, hread⟩
    exact countP_lt_length_of_exists _ rs ⟨r, hrm, by simp [hread]⟩
  have hres : (watchProbe rs).result = none := by
    have := probeGo_result_pending rs 0 ⟨[], rs.length, none⟩ (by simpa using hcnt)
    simpa [watchProbe] using this
  refine ⟨hres, ?_, runEvents_result_of_pending evs _ hres⟩
  simp [watchProbe, WatchState.subsOf, probeGo_rstates]

/-- C1 witness: one initially empty resource; the first (and only) enqueue
event fires its subscription and resolves with exactly that resource. -/
theorem watch_mixed_resolves_witness :
    (∃ r ∈ [(⟨"A", [], []⟩ : Resource)], (r.read).1 = NO_DATA_AVAILABLE) ∧
    (runEvents (watchProbe [⟨"A", [], []⟩]) [(0, "x")]).result = some [0] := by
  have hex : ∃ r ∈ [(⟨"A", [], []⟩ : Resource)], (r.read).1 = NO_DATA_AVAILABLE :=
    ⟨⟨"A", [], []⟩, by simp, rfl⟩
  refine ⟨hex, ?_⟩
  have h := watch_mixed_resolves_with_first_fired_subscription
    [⟨"A", [], []⟩] hex [(0, "x")]
  rw [h.2.2]
  decide

/-- C2 — when every probe of a non-empty resource set returns a real item,
no prefix of the probe callbacks resolves the promise; the last one resolves
it with a set containing every resource of the input set. -/
theorem watch_all_ready_resolves_full_set (rs : List Resource)
    (hne : rs ≠ [])
    (hall : ∀ r ∈ rs, (r.read).1 ≠ NO_DATA_AVAILABLE) :
    (∀ k, k < rs.length → (watchProbeUpTo rs k).result = none) ∧
    (watchProbe rs).result = some (List.range rs.length) ∧
    ∀ i, i < rs.length → i ∈ List.range rs.length := by
  refine ⟨?_, ?_, fun i hi => List.mem_range.mpr hi⟩
  · intro k hk
    have hlt : readyCount (rs.take k) < (⟨[], rs.length, none⟩ : WAcc).waiting := by
      have h1 : readyCount (rs.take k) ≤ (rs.take k).length :=
        List.countP_le_length _
      have h2 : (rs.take k).length ≤ k := by simp [List.length_take]
      simp only []
      omega
    exact probeGo_result_pending (rs.take k) 0 ⟨[], rs.length, none⟩ hlt
  · have h := probeGo_result_all_ready rs 0 ⟨[], rs.length, none⟩ hall rfl rfl hne
    simpa [watchProbe, List.range_eq_range'] using h

/-- C2 witness: two resources both holding data; the promise is still pending
after the first probe and resolves with both resources after the second. -/
theorem watch_all_ready_witness :
    ((⟨"A", [some "x"], []⟩ : Resource) :: [(⟨"B", [some "y"], []⟩ : Resource)] ≠ []) ∧
    (watchProbeUpTo [⟨"A", [some "x"], []⟩, ⟨"B", [some "y"], []⟩] 1).result = none ∧
    (watchProbe [⟨"A", [some "x"], []⟩, ⟨"B", [some "y"], []⟩]).result
      = some (List.range 2) := by
  have hall : ∀ r ∈ [(⟨"A", [some "x"], []⟩ : Resource), ⟨"B", [some "y"], []⟩],
      (r.read).1 ≠ NO_DATA_AVAILABLE := by decide
  have h := watch_all_ready_resolves_full_set
    [⟨"A", [some "x"], []⟩, ⟨"B", [some "y"], []⟩] (by simp) hall
  exact ⟨by simp, h.1 1 (by decide), h.2.1⟩

/-- C3 counterexample — for {R1, R2, R3} with only R2 holding data, the
probe phase completes with R2 in the `ready` array but the promise still
pending: `watch` does not immediately resolve with {R2}.  (The ready branch
resolves only when `waiting` reaches zero, and the empty branch never
decrements `waiting`.) -/
theorem watch_single_ready_not_immediate_counterexample :
    (watchProbe [⟨"R1", [], []⟩, ⟨"R2", [some "d"], []⟩, ⟨"R3", [], []⟩]).ready
      = [1] ∧
    (watchProbe [⟨"R1", [], []⟩, ⟨"R2", [some "d"], []⟩, ⟨"R3", [], []⟩]).waiting
      = 2 ∧
    (watchProbe [⟨"R1", [], []⟩, ⟨"R2", [some "d"], []⟩, ⟨"R3", [], []⟩]).result
      = none := by
  decide

/-- C3 amended — with only R2 holding data, the probe phase consumes R2's
item and leaves the promise pending, with subscriptions on R1 and R3; the
watch resolves only when a later enqueue event first hits R1 or R3, and then
with exactly that single resource. -/
theorem watch_single_ready_amended :
    (watchProbe [⟨"R1", [], []⟩, ⟨"R2", [some "d"], []⟩, ⟨"R3", [], []⟩]).result
      = none ∧
    (watchProbe [⟨"R1", [], []⟩, ⟨"R2", [some "d"], []⟩, ⟨"R3", [], []⟩]).subsOf
      = [true, false, true] ∧
    ∀ evs,
      (runEvents (watchProbe [⟨"R1", [], []⟩, ⟨"R2", [some "d"], []⟩, ⟨"R3", [], []⟩]) evs).result
        = (firstSubFired [true, false, true] evs).map (fun i => [i]) := by
  refine ⟨by decide, by decide, ?_⟩
  intro evs
  have hs : (watchProbe [⟨"R1", [], []⟩, ⟨"R2", [some "d"], []⟩, ⟨"R3", [], []⟩]).subsOf
      = [true, false, true] := by decide
  rw [runEvents_result_of_pending evs _ (by decide), hs]

/-- C8 — `watch` on the empty resource set: the probe phase runs no probe
callback, so `waiting` stays at zero, no `resolve` is ever reachable, and no
sequence of later enqueue events resolves the promise. -/
theorem watch_empty_set_never_resolves (evs : List (Nat × String)) :
    (watchProbe []).result = none ∧
    (runEvents (watchProbe []) evs).result = none := by
  refine ⟨rfl, ?_⟩
  rw [runEvents_result_of_pending evs _ rfl]
  have hs : (watchProbe []).subsOf = [] := rfl
  rw [hs, firstSubFired_nil_subs]
  rfl

/-- C9 — resolving through the subscription branch removes nothing from the
resource's queue: the enqueue event that fired the subscription appends its
item, the promise resolves with that resource, and the appended item is still
in the queue (the whole previous queue followed by the new item). -/
theorem subscription_resolution_preserves_queue
    (st : WatchState) (i : Nat) (d : String) (r : Resource)
    (hm : st.rstates[i]? = some ⟨r, true⟩) (hres : st.result = none) :
    (eventStep st (i, d)).result = some [i] ∧
    (eventStep st (i, d)).rstates[i]? = some ⟨(r.addDataQueue d).1, false⟩ ∧
    (r.addDataQueue d).1.dataQueue = r.dataQueue ++ [some d] := by
  refine ⟨?_, ?_, rfl⟩
  · simp [eventStep, hm, hres, resolveOnce]
  · have hlt : i < st.rstates.length := by
      by_contra hge
      rw [List.getElem?_eq_none (le_of_not_lt hge)] at hm
      cases hm
    simp [eventStep, hm, List.getElem?_set, hlt]

/-- C9 witness: a watch over one empty resource, then an enqueue of "x": the
promise resolves with that resource and the enqueued item is still queued. -/
theorem subscription_resolution_preserves_queue_witness :
    (watchProbe [⟨"A", [], []⟩]).rstates[0]? = some ⟨⟨"A", [], []⟩, true⟩ ∧
    (eventStep (watchProbe [⟨"A", [], []⟩]) (0, "x")).result = some [0] ∧
    ((⟨"A", [], []⟩ : Resource).addDataQueue "x").1.dataQueue = [some "x"] := by
  have h := subscription_resolution_preserves_queue
    (watchProbe [⟨"A", [], []⟩]) 0 "x" ⟨"A", [], []⟩ (by decide) (by decide)
  exact ⟨by decide, h.1, by simpa using h.2.2⟩
